import Mathlib

/-!
Verification development for the `sync-openclaw-metrics` aggregation script.

The script is a single-pass batch job: it lists `.jsonl` files in a session-log
directory, parses each non-empty line as JSON, filters to billable usage events,
folds them into running totals plus per-day and per-model rollups, and emits one
payload document.

Modelling conventions:
* JSON / JavaScript values are the inductive `JsVal`; property access on a
  non-object yields `JsVal.undefined`, matching optional chaining and the fact that
  primitive values carry none of the accessed properties.
* JavaScript numbers are modelled exactly as rationals; `NaN` (which arises only
  through `Number` conversion of non-numeric truthy values, since `JSON.parse`
  never produces it) is `Option.none` in the `Option ℚ` arithmetic domain, and
  addition is `NaN`-absorbing.
* Strings are `List Char`; `localeCompare` is modelled as code-point
  lexicographic comparison (the spec relies only on fixed-width ISO dates).
* `JSON.parse` is an abstract parameter `parse : List Char → Option JsVal`
  (`none` = parse failure); theorems about the reader and the run hold for
  every parse function, and concrete evaluations instantiate it with a finite
  table that agrees with `JSON.parse` on the lines exercised.
* `Array.prototype.sort` (required stable since ES2019) is `List.mergeSort`
  with the boolean relation "comparator result is ≤ 0, a comparator result of
  NaN counting as 0" exactly as the ECMAScript `SortCompare` does.
-/

mutual

/-- JavaScript value as it can appear while processing parsed JSON:
the JSON constructors plus `undefined` for absent properties. Object fields and
array elements use the sibling types `JsFields` / `JsList` (isomorphic to
lists) so that decidable equality is derivable. -/
inductive JsVal : Type where
  | undefined : JsVal
  | null : JsVal
  | bool (b : Bool) : JsVal
  | num (q : ℚ) : JsVal
  | str (s : List Char) : JsVal
  | arr (elems : JsList) : JsVal
  | obj (fields : JsFields) : JsVal
deriving DecidableEq

/-- Array elements of a `JsVal.arr`. -/
inductive JsList : Type where
  | nil : JsList
  | cons (v : JsVal) (tl : JsList) : JsList
deriving DecidableEq

/-- Key-value fields of a `JsVal.obj`, in object insertion order. -/
inductive JsFields : Type where
  | nil : JsFields
  | cons (k : List Char) (v : JsVal) (tl : JsFields) : JsFields
deriving DecidableEq

end

/-- First field with the given key (objects out of `JSON.parse` have unique
keys, so first-match and last-match coincide on every value handled here). -/
def JsFields.lookup : JsFields → List Char → Option JsVal
  | .nil, _ => none
  | .cons k v tl, key => if k = key then some v else tl.lookup key

/-- Convenience conversion for writing object literals. -/
def fieldsOf : List (List Char × JsVal) → JsFields
  | [] => .nil
  | (k, v) :: tl => .cons k v (fieldsOf tl)

/-- JavaScript truthiness of a value (`NaN` cannot occur here because
`JSON.parse` output never contains it). -/
def truthy : JsVal → Bool
  | .undefined => false
  | .null => false
  | .bool b => b
  | .num q => q != 0
  | .str s => !s.isEmpty
  | .arr _ => true
  | .obj _ => true

/-- Property access `v.k` (and `v?.k`): objects look the key up, every other
value yields `undefined`. -/
def jsGet (v : JsVal) (k : List Char) : JsVal :=
  match v with
  | .obj fields =>
    match fields.lookup k with
    | some w => w
    | none => .undefined
  | _ => .undefined

/-- JavaScript `a || b`. -/
def jsOr (a b : JsVal) : JsVal := if truthy a then a else b

/-- JavaScript `Number` conversion restricted to decimal digit strings; other
non-whitespace strings (signs, exponents, hex, `Infinity`) are mapped to `NaN`.
No theorem below depends on the unmodelled string formats. -/
def strToNumber (s : List Char) : Option ℚ :=
  if s.all (·.isWhitespace) then some 0
  else if !s.isEmpty && s.all (·.isDigit) then
    some ((s.foldl (fun n c => n * 10 + (c.toNat - 48)) 0 : ℕ) : ℚ)
  else none

/-- JavaScript `Number` conversion; `none` is `NaN`. Arrays are modelled for
the empty case only (other arrays → `NaN`), plain objects convert to `NaN`. -/
def toNumber : JsVal → Option ℚ
  | .undefined => none
  | .null => some 0
  | .bool b => some (if b then 1 else 0)
  | .num q => some q
  | .str s => strToNumber s
  | .arr .nil => some 0
  | .arr (.cons _ _) => none
  | .obj _ => none

/-- The `NaN`-absorbing addition on JavaScript numbers. -/
def jsAdd (a b : Option ℚ) : Option ℚ :=
  match a, b with
  | some x, some y => some (x + y)
  | _, _ => none

/-- The script's numeric coercion `Number(x || 0)`. -/
def numCoerce (v : JsVal) : Option ℚ := toNumber (jsOr v (.num 0))

/-- JavaScript `String` conversion: exact for strings, booleans, `null` and
`undefined`; integer numbers are rendered in decimal, while non-integer
numbers and composite values are abbreviated (no theorem depends on them). -/
def jsToString : JsVal → List Char
  | .str s => s
  | .bool b => if b then "true".data else "false".data
  | .null => "null".data
  | .undefined => "undefined".data
  | .num q =>
    if q.den = 1 then
      (if q.num < 0 then "-".data else []) ++ Nat.toDigits 10 q.num.natAbs
    else "~".data ++ Nat.toDigits 10 q.num.natAbs
  | .arr _ => []
  | .obj _ => "[object Object]".data

example : truthy (.str []) = false := by decide
example : truthy (.num 0) = false := by decide
example : numCoerce (.bool true) = some 1 := by decide
example : numCoerce .undefined = some 0 := by decide
example : numCoerce (.obj .nil) = none := by decide
example : jsGet (.obj (fieldsOf [("a".data, .num 3)])) ("a".data) = .num 3 := by decide

/-! Field-name keys used by the script. -/

def kMessage : List Char := "message".data
def kUsage : List Char := "usage".data
def kCost : List Char := "cost".data
def kTotal : List Char := "total".data
def kInput : List Char := "input".data
def kOutput : List Char := "output".data
def kCacheRead : List Char := "cacheRead".data
def kCacheWrite : List Char := "cacheWrite".data
def kTotalTokens : List Char := "totalTokens".data
def kTimestamp : List Char := "timestamp".data
def kModel : List Char := "model".data
def kModelId : List Char := "modelId".data

/-- Substring test, `hay.includes(needle)`. -/
def hasSub (needle : List Char) : List Char → Bool
  | [] => needle.isEmpty
  | c :: rest => needle.isPrefixOf (c :: rest) || hasSub needle rest

/-- The classifier `providerFromModel`, with the exact rule order of the script. -/
def providerFromModel (model : List Char) : List Char :=
  if ("anthropic/".data.isPrefixOf model) || hasSub ("claude".data) model then
    "Anthropic".data
  else if ("openai/".data.isPrefixOf model) then "OpenAI".data
  else if ("openai-codex/".data.isPrefixOf model) then "OpenAI Codex".data
  else if ("google/".data.isPrefixOf model) then "Google".data
  else if ("xai/".data.isPrefixOf model) then "xAI".data
  else "Other".data

/-- String contents of a value. Every log this script consumes stores model
identifiers as strings; a non-string truthy `model`/`modelId` would make the
original script throw before writing anything, a corner outside this model. -/
def asString : JsVal → List Char
  | .str s => s
  | _ => []

/-! Association lists with JavaScript `Map` semantics: `set` updates an
existing key in place (keeping its position) and appends a new key, so the
value list is in key-insertion order, as `Map` iteration is. -/

def alistGet {α β : Type} [DecidableEq α] : List (α × β) → α → Option β
  | [], _ => none
  | (k, v) :: tl, key => if k = key then some v else alistGet tl key

def alistSet {α β : Type} [DecidableEq α] : List (α × β) → α → β → List (α × β)
  | [], key, v => [(key, v)]
  | (k, w) :: tl, key, v =>
    if k = key then (key, v) :: tl else (k, w) :: alistSet tl key v

/-! The accumulator records, with the exact field sets of the script. -/

structure Totals : Type where
  calls : ℕ
  inputTokens : Option ℚ
  outputTokens : Option ℚ
  cacheRead : Option ℚ
  cacheWrite : Option ℚ
  totalTokens : Option ℚ
  cost : Option ℚ
deriving DecidableEq

structure Day : Type where
  date : List Char
  calls : ℕ
  inputTokens : Option ℚ
  outputTokens : Option ℚ
  totalTokens : Option ℚ
  cost : Option ℚ
deriving DecidableEq

structure ModelAgg : Type where
  model : JsVal
  provider : List Char
  calls : ℕ
  inputTokens : Option ℚ
  outputTokens : Option ℚ
  totalTokens : Option ℚ
  cost : Option ℚ
deriving DecidableEq

structure AggState : Type where
  totals : Totals
  byDay : List (List Char × Day)
  byModel : List (JsVal × ModelAgg)
deriving DecidableEq

def initTotals : Totals :=
  { calls := 0, inputTokens := some 0, outputTokens := some 0,
    cacheRead := some 0, cacheWrite := some 0, totalTokens := some 0,
    cost := some 0 }

def initState : AggState := { totals := initTotals, byDay := [], byModel := [] }

/-! Per-event derived values, named after the script's local bindings. -/

/-- The binding `event?.message`. -/
def msgOf (event : JsVal) : JsVal := jsGet event kMessage

/-- The binding `msg?.usage`. -/
def usageOf (event : JsVal) : JsVal := jsGet (msgOf event) kUsage

/-- The guard `if (!usage || !usage.cost) continue`, as the inclusion test. -/
def includedB (event : JsVal) : Bool :=
  truthy (usageOf event) && truthy (jsGet (usageOf event) kCost)

/-- The binding `event.timestamp || msg.timestamp || new Date().toISOString()`. -/
def tsOf (now : List Char) (event : JsVal) : JsVal :=
  jsOr (jsGet event kTimestamp) (jsOr (jsGet (msgOf event) kTimestamp) (.str now))

/-- The binding `String(ts).slice(0, 10)`. -/
def dateOf (now : List Char) (event : JsVal) : List Char :=
  (jsToString (tsOf now event)).take 10

/-- The binding `msg.model || msg.modelId || "unknown"` (single quotes in the
source). -/
def modelKeyOf (event : JsVal) : JsVal :=
  jsOr (jsGet (msgOf event) kModel)
    (jsOr (jsGet (msgOf event) kModelId) (.str ("unknown".data)))

/-- The expression `Number(usage.<k> || 0)`. -/
def contrib (event : JsVal) (k : List Char) : Option ℚ :=
  numCoerce (jsGet (usageOf event) k)

/-- The expression `Number(usage.cost.total || 0)`. -/
def costContrib (event : JsVal) : Option ℚ :=
  numCoerce (jsGet (jsGet (usageOf event) kCost) kTotal)

/-- One iteration of the script's event loop. -/
def stepEvent (now : List Char) (s : AggState) (event : JsVal) : AggState :=
  if includedB event then
    let date := dateOf now event
    let modelV := modelKeyOf event
    let provider := providerFromModel (asString modelV)
    let t := s.totals
    let totals2 : Totals :=
      { calls := t.calls + 1
        inputTokens := jsAdd t.inputTokens (contrib event kInput)
        outputTokens := jsAdd t.outputTokens (contrib event kOutput)
        cacheRead := jsAdd t.cacheRead (contrib event kCacheRead)
        cacheWrite := jsAdd t.cacheWrite (contrib event kCacheWrite)
        totalTokens := jsAdd t.totalTokens (contrib event kTotalTokens)
        cost := jsAdd t.cost (costContrib event) }
    let day0 : Day := (alistGet s.byDay date).getD
      { date := date, calls := 0, inputTokens := some 0, outputTokens := some 0,
        totalTokens := some 0, cost := some 0 }
    let day2 : Day :=
      { day0 with
        calls := day0.calls + 1
        inputTokens := jsAdd day0.inputTokens (contrib event kInput)
        outputTokens := jsAdd day0.outputTokens (contrib event kOutput)
        totalTokens := jsAdd day0.totalTokens (contrib event kTotalTokens)
        cost := jsAdd day0.cost (costContrib event) }
    let m0 : ModelAgg := (alistGet s.byModel modelV).getD
      { model := modelV, provider := provider, calls := 0, inputTokens := some 0,
        outputTokens := some 0, totalTokens := some 0, cost := some 0 }
    let m2 : ModelAgg :=
      { m0 with
        calls := m0.calls + 1
        inputTokens := jsAdd m0.inputTokens (contrib event kInput)
        outputTokens := jsAdd m0.outputTokens (contrib event kOutput)
        totalTokens := jsAdd m0.totalTokens (contrib event kTotalTokens)
        cost := jsAdd m0.cost (costContrib event) }
    { totals := totals2
      byDay := alistSet s.byDay date day2
      byModel := alistSet s.byModel modelV m2 }
  else s

/-- The whole event loop over the concatenated per-file event lists. -/
def aggregate (now : List Char) (events : List JsVal) : AggState :=
  events.foldl (stepEvent now) initState

/-! The emitter: sorting relations and the payload. -/

/-- Code-point lexicographic `≤` on strings (`localeCompare(...) <= 0`). -/
def lexLe : List Char → List Char → Bool
  | [], _ => true
  | _ :: _, [] => false
  | a :: as, b :: bs => if a < b then true else if b < a then false else lexLe as bs

/-- Sort relation of `daily.sort((a, b) => a.date.localeCompare(b.date))`. -/
def dailyLe (a b : Day) : Bool := lexLe a.date b.date

/-- Sort relation of `models.sort((a, b) => b.cost - a.cost)`: the comparator
is `≤ 0`, and a `NaN` comparator result counts as `0` (ECMAScript
`SortCompare`), so either operand being `NaN` compares as "equal". -/
def modelCostLe (a b : ModelAgg) : Bool :=
  match a.cost, b.cost with
  | some x, some y => decide (y ≤ x)
  | _, _ => true

structure Payload : Type where
  generatedAt : List Char
  source : List Char
  totals : Totals
  daily : List Day
  models : List ModelAgg
deriving DecidableEq

/-- The emitted document body. -/
def payloadOf (st : AggState) (now : List Char) : Payload :=
  { generatedAt := now
    source := "openclaw session jsonl usage records".data
    totals := st.totals
    daily := (st.byDay.map (fun p => p.2)).mergeSort dailyLe
    models := (st.byModel.map (fun p => p.2)).mergeSort modelCostLe }

/-! The record reader and the run driver. -/

/-- JavaScript `String.prototype.trim` (ASCII whitespace approximation). -/
def trimChars (s : List Char) : List Char :=
  ((s.dropWhile (·.isWhitespace)).reverse.dropWhile (·.isWhitespace)).reverse

def newlineChar : Char := '\n'

/-- Loop body of `readJsonl`: skip a line empty after trimming, append the
parsed value of a line the JSON parser accepts, drop a line it rejects. -/
def readStep (parse : List Char → Option JsVal) (rows : List JsVal)
    (line : List Char) : List JsVal :=
  let trimmed := trimChars line
  if trimmed.isEmpty then rows
  else
    match parse trimmed with
    | some j => rows ++ [j]
    | none => rows

/-- The reader `readJsonl`: split on newlines and run the line loop. -/
def readJsonl (parse : List Char → Option JsVal) (content : List Char) :
    List JsVal :=
  (content.splitOn newlineChar).foldl (readStep parse) []

/-- Aggregation environment: the observable state of the log directory plus
the run's clock reading (`new Date().toISOString()`). -/
structure Env : Type where
  dirExists : Bool
  entries : List (List Char)
  content : List Char → List Char
  now : List Char

/-- The test `f.endsWith(".jsonl")` (single quotes in the source). -/
def isJsonlName (f : List Char) : Bool := ".jsonl".data.isSuffixOf f

/-- The `files` list: directory listing filtered to `.jsonl` names when the
directory exists, `[]` otherwise. -/
def filesOf (env : Env) : List (List Char) :=
  if env.dirExists then env.entries.filter isJsonlName else []

/-- The whole run: `none` models the early `process.exit(0)` (nothing emitted,
any previously published document left untouched); `some p` models writing
payload `p`. -/
def sync (parse : List Char → Option JsVal) (env : Env) : Option Payload :=
  let fs := filesOf env
  if fs.isEmpty then none
  else
    let events := fs.flatMap (fun f => readJsonl parse (env.content f))
    some (payloadOf (aggregate env.now events) env.now)

/-! Specification-side definitions, written from the spec's words, to be
compared with the code-derived definitions above. -/

/-- Provider classifier as the spec's §4.2 rule list orders it: the
`openai-codex/` rule before the plain `openai/` rule. -/
def providerFromModelSpec (model : List Char) : List Char :=
  if ("anthropic/".data.isPrefixOf model) || hasSub ("claude".data) model then
    "Anthropic".data
  else if ("openai-codex/".data.isPrefixOf model) then "OpenAI Codex".data
  else if ("openai/".data.isPrefixOf model) then "OpenAI".data
  else if ("google/".data.isPrefixOf model) then "Google".data
  else if ("xai/".data.isPrefixOf model) then "xAI".data
  else "Other".data

/-- Model key resolution as the claim words it: `message.model` if truthy,
else `message.modelId` if truthy, else the literal `"unknown"`. -/
def specModelKeyOf (event : JsVal) : JsVal :=
  if truthy (jsGet (msgOf event) kModel) then jsGet (msgOf event) kModel
  else if truthy (jsGet (msgOf event) kModelId) then jsGet (msgOf event) kModelId
  else .str ("unknown".data)

/-- Timestamp resolution as the claim words it: `event.timestamp` if truthy,
else `message.timestamp` if truthy, else the processing time. -/
def specTsOf (now : List Char) (event : JsVal) : JsVal :=
  if truthy (jsGet event kTimestamp) then jsGet event kTimestamp
  else if truthy (jsGet (msgOf event) kTimestamp) then jsGet (msgOf event) kTimestamp
  else .str now

/-- Daily grouping key as the claim words it. -/
def specDateKeyOf (now : List Char) (event : JsVal) : List Char :=
  (jsToString (specTsOf now event)).take 10

/-- Object test, for the claim reading "carries a `usage.cost` sub-object". -/
def isObjVal : JsVal → Bool
  | .obj _ => true
  | _ => false

/-- Count of events carrying a usage object together with a `usage.cost` that
is itself an object, the literal reading of the claimed `calls` invariant. -/
def claimCallsCountC3 (events : List JsVal) : ℕ :=
  (events.filter (fun e => isObjVal (usageOf e) && isObjVal (jsGet (usageOf e) kCost))).length

/-! Helpers for stating the sum invariants and order properties. -/

/-- The sublist of events that pass the usage/cost gate. -/
def includedList (events : List JsVal) : List JsVal := events.filter includedB

/-- Sum of a per-event JavaScript number, accumulated like the script does
(left fold of `NaN`-absorbing addition starting from `0`). -/
def sumJs (f : JsVal → Option ℚ) (events : List JsVal) : Option ℚ :=
  events.foldl (fun acc e => jsAdd acc (f e)) (some 0)

/-- JavaScript `a >= b` on numbers: false whenever either side is `NaN`. -/
def optGeB : Option ℚ → Option ℚ → Bool
  | some x, some y => decide (y ≤ x)
  | _, _ => false

/-- Total transitive companion of `modelCostLe`, used to reason about the
model sort when no cost is `NaN`. -/
def modelLeTot (a b : ModelAgg) : Bool :=
  decide (b.cost.getD 0 ≤ a.cost.getD 0)

/-- Event has a usable own timestamp (either position), i.e. the `now`
fallback is not taken. -/
def hasOwnTs (e : JsVal) : Bool :=
  truthy (jsGet e kTimestamp) || truthy (jsGet (msgOf e) kTimestamp)

/-! Concrete inputs for witnesses and counterexamples. -/

def nowX : List Char := "2026-03-01T12:00:00.000Z".data
def nowA : List Char := "2024-01-01T00:00:00.000Z".data
def nowB : List Char := "2024-01-02T00:00:00.000Z".data

/-- Scenario event: `anthropic/claude-3`, cost 1.5, on 2026-02-20. -/
def evScen1 : JsVal := .obj (fieldsOf [
  (kTimestamp, .str ("2026-02-20T10:00:00.000Z".data)),
  (kMessage, .obj (fieldsOf [
    (kModel, .str ("anthropic/claude-3".data)),
    (kUsage, .obj (fieldsOf [
      (kInput, .num 10), (kOutput, .num 5), (kTotalTokens, .num 15),
      (kCost, .obj (fieldsOf [(kTotal, .num (3/2))]))]))]))])

/-- Scenario event: `openai/gpt-4`, cost 2.25, on 2026-02-20. -/
def evScen2 : JsVal := .obj (fieldsOf [
  (kTimestamp, .str ("2026-02-20T11:00:00.000Z".data)),
  (kMessage, .obj (fieldsOf [
    (kModel, .str ("openai/gpt-4".data)),
    (kUsage, .obj (fieldsOf [
      (kInput, .num 20), (kOutput, .num 7), (kTotalTokens, .num 27),
      (kCost, .obj (fieldsOf [(kTotal, .num (9/4))]))]))]))])

/-- Billable event carrying no timestamp anywhere. -/
def evNoTs : JsVal := .obj (fieldsOf [
  (kMessage, .obj (fieldsOf [
    (kUsage, .obj (fieldsOf [
      (kCost, .obj (fieldsOf [(kTotal, .num 1)]))]))]))])

/-- Billable event with a top-level timestamp. -/
def evTs : JsVal := .obj (fieldsOf [
  (kTimestamp, .str ("2026-02-20T10:00:00.000Z".data)),
  (kMessage, .obj (fieldsOf [
    (kUsage, .obj (fieldsOf [
      (kCost, .obj (fieldsOf [(kTotal, .num 2)]))]))]))])

/-- Billable event whose `usage.input` is the non-numeric truthy `true`. -/
def evBoolInput : JsVal := .obj (fieldsOf [
  (kMessage, .obj (fieldsOf [
    (kUsage, .obj (fieldsOf [
      (kCost, .obj (fieldsOf [(kTotal, .num 1)])),
      (kInput, .bool true)]))]))])

/-- Event whose `usage.cost` is the truthy number `5`, not an object. -/
def evCostNum : JsVal := .obj (fieldsOf [
  (kMessage, .obj (fieldsOf [
    (kUsage, .obj (fieldsOf [(kCost, .num 5)]))]))])

/-- Event with a `usage` object at the top level only. -/
def evTopUsage : JsVal := .obj (fieldsOf [
  (kUsage, .obj (fieldsOf [
    (kCost, .obj (fieldsOf [(kTotal, .num 3)]))]))])

/-- Event with a present but falsy `message.usage.cost` (the number `0`). -/
def evZeroCost : JsVal := .obj (fieldsOf [
  (kMessage, .obj (fieldsOf [
    (kUsage, .obj (fieldsOf [(kCost, .num 0)]))]))])

/-- Billable event with `modelId` but no `model`. -/
def evOnlyModelId : JsVal := .obj (fieldsOf [
  (kMessage, .obj (fieldsOf [
    (kModelId, .str ("gpt-9".data)),
    (kUsage, .obj (fieldsOf [
      (kCost, .obj (fieldsOf [(kTotal, .num 1)]))]))]))])

/-- Billable event with an empty top-level timestamp and a message-level
timestamp on 2026-02-21. -/
def evEmptyTs : JsVal := .obj (fieldsOf [
  (kTimestamp, .str []),
  (kMessage, .obj (fieldsOf [
    (kTimestamp, .str ("2026-02-21T09:00:00.000Z".data)),
    (kUsage, .obj (fieldsOf [
      (kCost, .obj (fieldsOf [(kTotal, .num 1)]))]))]))])

/-- Billable event whose `cost.total` is an object, so its cost contribution
is `Number({}) = NaN`. -/
def evNaN : JsVal := .obj (fieldsOf [
  (kMessage, .obj (fieldsOf [
    (kModel, .str ("m-first".data)),
    (kUsage, .obj (fieldsOf [
      (kCost, .obj (fieldsOf [(kTotal, .obj .nil)]))]))]))])

/-- Billable event with cost 5 under a second model. -/
def evFive : JsVal := .obj (fieldsOf [
  (kMessage, .obj (fieldsOf [
    (kModel, .str ("m-second".data)),
    (kUsage, .obj (fieldsOf [
      (kCost, .obj (fieldsOf [(kTotal, .num 5)]))]))]))])

/-! Concrete log lines and a parse table agreeing with `JSON.parse` on them. -/

/-- The JSON text of `evNoTs`. -/
def lineNoTs : List Char :=
  "\x7b\"message\":\x7b\"usage\":\x7b\"cost\":\x7b\"total\":1\x7d\x7d\x7d\x7d".data

/-- The JSON text of `evTs`. -/
def lineTs : List Char :=
  "\x7b\"timestamp\":\"2026-02-20T10:00:00.000Z\",\"message\":\x7b\"usage\":\x7b\"cost\":\x7b\"total\":2\x7d\x7d\x7d\x7d".data

/-- A line that is not JSON. -/
def lineBad : List Char := "random non-json text !!".data

/-- Finite parse table; it agrees with `JSON.parse` on every line it maps
(and on nothing else being asked: the runs below only ever parse the lines
above, with `lineBad` rejected just as `JSON.parse` would throw on it). -/
def parse0 (l : List Char) : Option JsVal :=
  alistGet [(lineNoTs, evNoTs), (lineTs, evTs)] l

/-- A file whose only line is `lineNoTs`, plus a whitespace line and a
malformed line. -/
def contentMixed : List Char :=
  lineNoTs ++ newlineChar :: ' ' :: newlineChar :: lineBad

/-- Existing directory holding no `.jsonl` file. -/
def envEmptyDir : Env :=
  { dirExists := true, entries := ["notes.txt".data], content := fun _ => [],
    now := nowX }

/-- Directory with one `.jsonl` file whose single event has no timestamp;
clock reads `nowA`. -/
def envNoTsA : Env :=
  { dirExists := true, entries := ["a.jsonl".data], content := fun _ => lineNoTs,
    now := nowA }

/-- Same log state as `envNoTsA` with the clock reading `nowB`. -/
def envNoTsB : Env := { envNoTsA with now := nowB }

/-- Directory with one `.jsonl` file whose single event carries a
timestamp. -/
def envTs : Env :=
  { dirExists := true, entries := ["a.jsonl".data], content := fun _ => lineTs,
    now := nowA }

/-- Day rollup produced by `evNoTs` when the clock reads `nowA`. -/
def dayNoTsA : Day :=
  { date := "2024-01-01".data, calls := 1, inputTokens := some 0,
    outputTokens := some 0, totalTokens := some 0, cost := some 1 }

/-- Day rollup produced by `evNoTs` when the clock reads `nowB`. -/
def dayNoTsB : Day :=
  { date := "2024-01-02".data, calls := 1, inputTokens := some 0,
    outputTokens := some 0, totalTokens := some 0, cost := some 1 }

/-- Model rollup of `evNaN`: its cost is `NaN`. -/
def mNaN : ModelAgg :=
  { model := .str ("m-first".data), provider := "Other".data, calls := 1,
    inputTokens := some 0, outputTokens := some 0, totalTokens := some 0,
    cost := none }

/-- Model rollup of `evFive`: cost 5. -/
def mFive : ModelAgg :=
  { model := .str ("m-second".data), provider := "Other".data, calls := 1,
    inputTokens := some 0, outputTokens := some 0, totalTokens := some 0,
    cost := some 5 }

unseal Rat.add Rat.mul Rat.inv Rat.ofScientific

theorem mergeSort_pair {α : Type} (le : α → α → Bool) (a b : α) :
    [a, b].mergeSort le = if le a b then [a, b] else [b, a] := by
  rw [List.mergeSort]
  simp [List.splitInTwo, List.splitAt_eq]
  rw [List.cons_merge_cons]
  split
  · simp
  · simp

theorem readJsonl_foldl (parse : List Char → Option JsVal) :
    ∀ (lines : List (List Char)) (acc : List JsVal),
      lines.foldl (readStep parse) acc
      = acc ++ lines.filterMap
          (fun line =>
            if (trimChars line).isEmpty then none else parse (trimChars line))
  | [], acc => by simp
  | l :: ls, acc => by
    rw [List.foldl_cons, List.filterMap_cons]
    by_cases h : (trimChars l).isEmpty
    · rw [readJsonl_foldl parse ls]
      simp [readStep, h]
    · cases hp : parse (trimChars l) with
      | none =>
        rw [readJsonl_foldl parse ls]
        simp [readStep, h, hp]
      | some j =>
        rw [readJsonl_foldl parse ls]
        simp [readStep, h, hp]

theorem readJsonl_eq (parse : List Char → Option JsVal) (content : List Char) :
    readJsonl parse content
      = (content.splitOn newlineChar).filterMap
          (fun line =>
            if (trimChars line).isEmpty then none else parse (trimChars line)) := by
  unfold readJsonl
  rw [readJsonl_foldl]
  simp

theorem stepEvent_not_included (now : List Char) (s : AggState) (e : JsVal)
    (h : includedB e = false) : stepEvent now s e = s := by
  simp [stepEvent, h]

theorem foldl_totals_field (now : List Char) (get : Totals → Option ℚ)
    (g : JsVal → Option ℚ)
    (hstep : ∀ s e, includedB e = true →
      get (stepEvent now s e).totals = jsAdd (get s.totals) (g e)) :
    ∀ (events : List JsVal) (s : AggState),
      get ((events.foldl (stepEvent now) s).totals)
        = (includedList events).foldl (fun acc e => jsAdd acc (g e)) (get s.totals)
  | [], s => by simp [includedList]
  | e :: tl, s => by
    rw [List.foldl_cons]
    rw [foldl_totals_field now get g hstep tl]
    by_cases h : includedB e
    · simp [includedList, List.filter_cons, h, hstep _ _ h]
    · simp [includedList, List.filter_cons, h,
        stepEvent_not_included now s e (by simpa using h)]

theorem foldl_totals_calls (now : List Char) :
    ∀ (events : List JsVal) (s : AggState),
      ((events.foldl (stepEvent now) s).totals).calls
        = s.totals.calls + (includedList events).length
  | [], s => by simp [includedList]
  | e :: tl, s => by
    rw [List.foldl_cons]
    rw [foldl_totals_calls now tl]
    by_cases h : includedB e
    · have hc : (stepEvent now s e).totals.calls = s.totals.calls + 1 := by
        simp [stepEvent, h]
      simp [includedList, List.filter_cons, h, hc]
      omega
    · simp [includedList, List.filter_cons, h,
        stepEvent_not_included now s e (by simpa using h)]

theorem aggregate_totals_spec (now : List Char) (events : List JsVal) :
    (aggregate now events).totals.calls = (includedList events).length
    ∧ (aggregate now events).totals.inputTokens
        = sumJs (fun e => contrib e kInput) (includedList events)
    ∧ (aggregate now events).totals.outputTokens
        = sumJs (fun e => contrib e kOutput) (includedList events)
    ∧ (aggregate now events).totals.cacheRead
        = sumJs (fun e => contrib e kCacheRead) (includedList events)
    ∧ (aggregate now events).totals.cacheWrite
        = sumJs (fun e => contrib e kCacheWrite) (includedList events)
    ∧ (aggregate now events).totals.totalTokens
        = sumJs (fun e => contrib e kTotalTokens) (includedList events)
    ∧ (aggregate now events).totals.cost
        = sumJs (fun e => costContrib e) (includedList events) := by
  refine ⟨?_, ?_, ?_, ?_, ?_, ?_, ?_⟩
  · have := foldl_totals_calls now events initState
    simpa [aggregate, initState, initTotals] using this
  · have := foldl_totals_field now Totals.inputTokens (fun e => contrib e kInput)
      (by intro s e h; simp [stepEvent, h]) events initState
    simpa [aggregate, sumJs, initState, initTotals] using this
  · have := foldl_totals_field now Totals.outputTokens (fun e => contrib e kOutput)
      (by intro s e h; simp [stepEvent, h]) events initState
    simpa [aggregate, sumJs, initState, initTotals] using this
  · have := foldl_totals_field now Totals.cacheRead (fun e => contrib e kCacheRead)
      (by intro s e h; simp [stepEvent, h]) events initState
    simpa [aggregate, sumJs, initState, initTotals] using this
  · have := foldl_totals_field now Totals.cacheWrite (fun e => contrib e kCacheWrite)
      (by intro s e h; simp [stepEvent, h]) events initState
    simpa [aggregate, sumJs, initState, initTotals] using this
  · have := foldl_totals_field now Totals.totalTokens (fun e => contrib e kTotalTokens)
      (by intro s e h; simp [stepEvent, h]) events initState
    simpa [aggregate, sumJs, initState, initTotals] using this
  · have := foldl_totals_field now Totals.cost (fun e => costContrib e)
      (by intro s e h; simp [stepEvent, h]) events initState
    simpa [aggregate, sumJs, initState, initTotals] using this

theorem lexLe_total : ∀ a b : List Char, lexLe a b = true ∨ lexLe b a = true
  | [], _ => by left; simp [lexLe]
  | _ :: _, [] => by right; simp [lexLe]
  | a :: as, b :: bs => by
    by_cases h1 : a < b
    · left; simp [lexLe, h1]
    · by_cases h2 : b < a
      · right; simp [lexLe, h2, h1]
      · rcases lexLe_total as bs with h | h
        · left; simp [lexLe, h1, h2, h]
        · right; simp [lexLe, h1, h2, h]

theorem lexLe_trans :
    ∀ a b c : List Char, lexLe a b = true → lexLe b c = true → lexLe a c = true
  | [], _, _ => by simp [lexLe]
  | a :: as, [], _ => by simp [lexLe]
  | a :: as, b :: bs, [] => by simp [lexLe]
  | a :: as, b :: bs, c :: cs => by
    intro hab hbc
    simp only [lexLe] at hab hbc ⊢
    by_cases h1 : a < b
    · by_cases h2 : b < c
      · simp [lt_trans h1 h2]
      · by_cases h3 : c < b
        · simp [h2, h3] at hbc
        · have hcb : c = b := le_antisymm (not_lt.mp h2) (not_lt.mp h3)
          subst hcb
          simp [h1]
    · by_cases h1b : b < a
      · simp [h1, h1b] at hab
      · have hba : a = b := le_antisymm (not_lt.mp h1b) (not_lt.mp h1)
        subst hba
        by_cases h2 : a < c
        · simp [h2]
        · by_cases h3 : c < a
          · simp [h2, h3] at hbc
          · simp [h1, h2, h3] at hab hbc ⊢
            exact lexLe_trans as bs cs hab hbc

theorem openai_prefixes_disjoint (m : List Char)
    (h1 : "openai/".data.isPrefixOf m = true)
    (h2 : "openai-codex/".data.isPrefixOf m = true) : False := by
  rw [List.isPrefixOf_iff_prefix] at h1 h2
  obtain ⟨t1, e1⟩ := h1
  obtain ⟨t2, e2⟩ := h2
  rw [← e1] at e2
  have hL : ("openai-codex/".data ++ t2)[6]? = some '-' := by
    rw [List.getElem?_append_left (by decide)]
    decide
  rw [e2, List.getElem?_append_left (by decide)] at hL
  have : some '/' = some '-' := by
    rw [← hL]
    decide
  simp at this

theorem merge_congr {α : Type} (le le2 : α → α → Bool) :
    ∀ (xs ys : List α),
      (∀ a ∈ xs, ∀ b ∈ ys, le a b = le2 a b) →
      xs.merge ys le = xs.merge ys le2
  | [], ys, _ => by simp
  | x :: xs, [], _ => by simp
  | x :: xs, y :: ys, h => by
    rw [List.cons_merge_cons, List.cons_merge_cons, ← h x (by simp) y (by simp)]
    split
    · rw [merge_congr le le2 xs (y :: ys) (fun a ha b hb => h a (by simp [ha]) b hb)]
    · rw [merge_congr le le2 (x :: xs) ys (fun a ha b hb => h a ha b (by simp [hb]))]
termination_by xs ys => xs.length + ys.length

theorem mergeSort_congr {α : Type} (le le2 : α → α → Bool) :
    ∀ (l : List α),
      (∀ a ∈ l, ∀ b ∈ l, le a b = le2 a b) →
      l.mergeSort le = l.mergeSort le2
  | [], _ => by simp
  | [a], _ => by simp
  | a :: b :: xs, h => by
    have hl1 : (List.splitInTwo ⟨a :: b :: xs, rfl⟩).1.1.length < xs.length + 1 + 1 := by
      simp [List.splitInTwo_fst]; omega
    have hl2 : (List.splitInTwo ⟨a :: b :: xs, rfl⟩).2.1.length < xs.length + 1 + 1 := by
      simp [List.splitInTwo_snd]; omega
    have hm1 : ∀ x ∈ (List.splitInTwo ⟨a :: b :: xs, rfl⟩).1.1, x ∈ a :: b :: xs := by
      intro x hx
      rw [List.splitInTwo_fst] at hx
      exact List.mem_of_mem_take hx
    have hm2 : ∀ x ∈ (List.splitInTwo ⟨a :: b :: xs, rfl⟩).2.1, x ∈ a :: b :: xs := by
      intro x hx
      rw [List.splitInTwo_snd] at hx
      exact List.mem_of_mem_drop hx
    rw [List.mergeSort, List.mergeSort]
    rw [mergeSort_congr le le2 (List.splitInTwo ⟨a :: b :: xs, rfl⟩).1.1
        (fun x hx y hy => h x (hm1 x hx) y (hm1 y hy))]
    rw [mergeSort_congr le le2 (List.splitInTwo ⟨a :: b :: xs, rfl⟩).2.1
        (fun x hx y hy => h x (hm2 x hx) y (hm2 y hy))]
    exact merge_congr le le2 _ _
      (fun x hx y hy =>
        h x (hm1 x (List.mem_mergeSort.mp hx)) y (hm2 y (List.mem_mergeSort.mp hy)))
termination_by l => l.length

theorem tsOf_now_indep (n1 n2 : List Char) (e : JsVal) (h : hasOwnTs e = true) :
    tsOf n1 e = tsOf n2 e := by
  simp only [hasOwnTs, Bool.or_eq_true] at h
  rcases h with h | h
  · simp [tsOf, jsOr, h]
  · by_cases h0 : truthy (jsGet e kTimestamp) <;> simp [tsOf, jsOr, h, h0]

theorem stepEvent_now_indep (n1 n2 : List Char) (s : AggState) (e : JsVal)
    (h : includedB e = false ∨ hasOwnTs e = true) :
    stepEvent n1 s e = stepEvent n2 s e := by
  rcases h with h | h
  · rw [stepEvent_not_included n1 s e h, stepEvent_not_included n2 s e h]
  · have hd : dateOf n1 e = dateOf n2 e := by
      rw [dateOf, dateOf, tsOf_now_indep n1 n2 e h]
    unfold stepEvent
    rw [hd]

theorem foldl_now_indep (n1 n2 : List Char) :
    ∀ (events : List JsVal) (s : AggState),
      (∀ e ∈ events, includedB e = false ∨ hasOwnTs e = true) →
      events.foldl (stepEvent n1) s = events.foldl (stepEvent n2) s
  | [], _, _ => rfl
  | e :: tl, s, h => by
    rw [List.foldl_cons, List.foldl_cons,
      stepEvent_now_indep n1 n2 s e (h e (by simp)),
      foldl_now_indep n1 n2 tl _ (fun x hx => h x (by simp [hx]))]

theorem sync_eq_some (parse : List Char → Option JsVal) (env : Env)
    (h : ¬ filesOf env = []) :
    sync parse env
      = some (payloadOf
          (aggregate env.now
            ((filesOf env).flatMap (fun f => readJsonl parse (env.content f))))
          env.now) := by
  simp [sync, h]

theorem sync_eq_none_iff (parse : List Char → Option JsVal) (env : Env) :
    sync parse env = none ↔ filesOf env = [] := by
  by_cases h : filesOf env = []
  · simp [sync, h]
  · simp [sync, h]

theorem providerFromModel_eq_spec (m : List Char) :
    providerFromModel m = providerFromModelSpec m := by
  unfold providerFromModel providerFromModelSpec
  by_cases hA : ("anthropic/".data.isPrefixOf m || hasSub ("claude".data) m) = true
  · simp [hA]
  · by_cases h1 : "openai/".data.isPrefixOf m = true
    · have h2 : "openai-codex/".data.isPrefixOf m = false := by
        by_contra hc
        exact openai_prefixes_disjoint m h1 (by simpa using hc)
      simp [hA, h1, h2]
    · by_cases h2 : "openai-codex/".data.isPrefixOf m = true
      · simp [hA, h1, h2]
      · simp [hA, h1, h2]

theorem providerFromModel_mem (m : List Char) :
    providerFromModel m ∈
      ["Anthropic".data, "OpenAI Codex".data, "OpenAI".data, "Google".data,
        "xAI".data, "Other".data] := by
  unfold providerFromModel
  split_ifs <;> simp

/-- C4: the provider classifier is a deterministic total function on strings
agreeing pointwise with the spec's ordered rule list (in which the
`openai-codex/` rule precedes the plain `openai/` rule), and every input maps
to one of the six labels. -/
theorem c4_classifier (m : List Char) :
    providerFromModel m = providerFromModelSpec m
    ∧ providerFromModel m ∈
        ["Anthropic".data, "OpenAI Codex".data, "OpenAI".data, "Google".data,
          "xAI".data, "Other".data] :=
  ⟨providerFromModel_eq_spec m, providerFromModel_mem m⟩

/-- C6: the record reader yields exactly the parsed values of the non-empty
lines the parser accepts (an empty-after-trim line is skipped, a rejected line
is dropped), and on a file mixing one well-formed line, a whitespace line and
a malformed line it yields exactly the well-formed event. -/
theorem c6_reader :
    (∀ (parse : List Char → Option JsVal) (content : List Char),
      readJsonl parse content
        = (content.splitOn newlineChar).filterMap
            (fun line =>
              if (trimChars line).isEmpty then none else parse (trimChars line)))
    ∧ readJsonl parse0 contentMixed = [evNoTs] :=
  ⟨readJsonl_eq, by decide⟩

/-- C8: an event is included iff its nested `message.usage` is present and
`message.usage.cost` is truthy; a top-level `usage` does not qualify and a
present-but-falsy cost excludes. -/
theorem c8_inclusion :
    (∀ e : JsVal,
      includedB e = true
        ↔ (usageOf e ≠ .undefined ∧ truthy (jsGet (usageOf e) kCost) = true))
    ∧ includedB evTopUsage = false
    ∧ includedB evZeroCost = false := by
  refine ⟨?_, by decide, by decide⟩
  intro e
  constructor
  · intro h
    rw [includedB, Bool.and_eq_true] at h
    refine ⟨?_, h.2⟩
    intro hu
    rw [hu] at h
    simp [truthy] at h
  · rintro ⟨h1, h2⟩
    rw [includedB, Bool.and_eq_true]
    refine ⟨?_, h2⟩
    cases hu : usageOf e <;> rw [hu] at h2 <;> simp [jsGet, truthy] at h2 ⊢

/-- C9: the model key (also the classifier input) is `message.model` if
truthy, else `message.modelId` if truthy, else `"unknown"`; in particular an
event with only a `modelId` is grouped under that `modelId`. -/
theorem c9_model_resolution :
    (∀ e : JsVal, modelKeyOf e = specModelKeyOf e)
    ∧ (aggregate nowX [evOnlyModelId]).byModel.map (fun p => p.1)
        = [.str ("gpt-9".data)] :=
  ⟨fun _ => rfl, by decide⟩

/-- C10: the daily key is the first 10 characters of the string form of the
resolved timestamp (`event.timestamp` if truthy, else `message.timestamp` if
truthy, else the processing time); in particular an empty-string top-level
timestamp falls through to the message timestamp. -/
theorem c10_date_resolution :
    (∀ (now : List Char) (e : JsVal), dateOf now e = specDateKeyOf now e)
    ∧ (aggregate nowX [evEmptyTs]).byDay.map (fun p => p.1)
        = ["2026-02-21".data] :=
  ⟨fun _ _ => rfl, by decide⟩

/-- C1 counterexample: a directory that exists but contains no `.jsonl` file
still makes the run exit early emitting nothing, contradicting the claim that
an existing directory always yields exactly one payload. -/
theorem c1_counterexample :
    envEmptyDir.dirExists = true ∧ sync parse0 envEmptyDir = none :=
  ⟨rfl, (sync_eq_none_iff parse0 envEmptyDir).mpr (by decide)⟩

/-- C1 (amended): the run exits early emitting nothing iff the `.jsonl` file
list is empty, i.e. iff the directory is absent or lists no `.jsonl` name;
otherwise it emits exactly one payload. -/
theorem c1_amended (parse : List Char → Option JsVal) (env : Env) :
    (sync parse env = none ↔ filesOf env = [])
    ∧ (filesOf env = []
        ↔ (env.dirExists = false ∨ env.entries.filter isJsonlName = [])) := by
  refine ⟨sync_eq_none_iff parse env, ?_⟩
  cases h : env.dirExists <;> simp [filesOf, h]

/-- C3 counterexample: an event whose `message.usage.cost` is the truthy
number `5` (not a sub-object) is counted by the code (`calls = 1`) although it
carries no `usage.cost` sub-object (the claimed count is 0). -/
theorem c3_counterexample :
    (aggregate nowX [evCostNum]).totals.calls = 1
    ∧ claimCallsCountC3 [evCostNum] = 0 := by decide

/-- C3 (amended): every `Totals` field equals the `NaN`-absorbing sum of the
coerced corresponding usage field over the included events, and `calls`
counts the events whose `message.usage` and `message.usage.cost` are both
truthy. -/
theorem c3_totals_invariant (now : List Char) (events : List JsVal) :
    (aggregate now events).totals.calls = (includedList events).length
    ∧ (aggregate now events).totals.inputTokens
        = sumJs (fun e => contrib e kInput) (includedList events)
    ∧ (aggregate now events).totals.outputTokens
        = sumJs (fun e => contrib e kOutput) (includedList events)
    ∧ (aggregate now events).totals.cacheRead
        = sumJs (fun e => contrib e kCacheRead) (includedList events)
    ∧ (aggregate now events).totals.cacheWrite
        = sumJs (fun e => contrib e kCacheWrite) (includedList events)
    ∧ (aggregate now events).totals.totalTokens
        = sumJs (fun e => contrib e kTotalTokens) (includedList events)
    ∧ (aggregate now events).totals.cost
        = sumJs (fun e => costContrib e) (includedList events) :=
  aggregate_totals_spec now events

/-- C2 counterexample: the non-numeric truthy sub-field `usage.input = true`
contributes `Number(true) = 1`, not `0`, to the input-token accumulator. -/
theorem c2_counterexample :
    (aggregate nowX [evBoolInput]).totals.inputTokens = some 1
    ∧ ¬ (aggregate nowX [evBoolInput]).totals.inputTokens = some 0 := by decide

/-- C2 (amended): a missing or falsy usage sub-field coerces to exactly `0`
(so it contributes zero to every accumulator), while a truthy sub-field
contributes its JavaScript `Number` conversion — which for non-numeric values
need not be zero; each `Totals` accumulator is the `NaN`-absorbing sum of
these coerced contributions over the included events. -/
theorem c2_zero_coercion (now : List Char) (events : List JsVal) (v : JsVal)
    (hv : truthy v = false) :
    numCoerce v = some 0
    ∧ (aggregate now events).totals.inputTokens
        = sumJs (fun e => contrib e kInput) (includedList events)
    ∧ (aggregate now events).totals.outputTokens
        = sumJs (fun e => contrib e kOutput) (includedList events)
    ∧ (aggregate now events).totals.cacheRead
        = sumJs (fun e => contrib e kCacheRead) (includedList events)
    ∧ (aggregate now events).totals.cacheWrite
        = sumJs (fun e => contrib e kCacheWrite) (includedList events)
    ∧ (aggregate now events).totals.totalTokens
        = sumJs (fun e => contrib e kTotalTokens) (includedList events)
    ∧ (aggregate now events).totals.cost
        = sumJs (fun e => costContrib e) (includedList events) := by
  have h := aggregate_totals_spec now events
  refine ⟨?_, h.2.1, h.2.2.1, h.2.2.2.1, h.2.2.2.2.1, h.2.2.2.2.2.1, h.2.2.2.2.2.2⟩
  simp [numCoerce, jsOr, hv, toNumber]

/-- C2 witness: the amended coercion statement evaluated at `null` and at the
two scenario events. -/
theorem c2_zero_coercion_witness :
    truthy JsVal.null = false
    ∧ (numCoerce JsVal.null = some 0
      ∧ (aggregate nowX [evScen1, evScen2]).totals.inputTokens
          = sumJs (fun e => contrib e kInput) (includedList [evScen1, evScen2])
      ∧ (aggregate nowX [evScen1, evScen2]).totals.outputTokens
          = sumJs (fun e => contrib e kOutput) (includedList [evScen1, evScen2])
      ∧ (aggregate nowX [evScen1, evScen2]).totals.cacheRead
          = sumJs (fun e => contrib e kCacheRead) (includedList [evScen1, evScen2])
      ∧ (aggregate nowX [evScen1, evScen2]).totals.cacheWrite
          = sumJs (fun e => contrib e kCacheWrite) (includedList [evScen1, evScen2])
      ∧ (aggregate nowX [evScen1, evScen2]).totals.totalTokens
          = sumJs (fun e => contrib e kTotalTokens) (includedList [evScen1, evScen2])
      ∧ (aggregate nowX [evScen1, evScen2]).totals.cost
          = sumJs (fun e => costContrib e) (includedList [evScen1, evScen2])) :=
  ⟨rfl, c2_zero_coercion nowX [evScen1, evScen2] JsVal.null rfl⟩

/-- C7 counterexample: with one event carrying no timestamp, two runs over the
unchanged log set at different clock readings emit different `daily` arrays,
so the payloads differ beyond `generatedAt`. -/
theorem c7_counterexample :
    (sync parse0 envNoTsA).map Payload.daily
      ≠ (sync parse0 envNoTsB).map Payload.daily := by
  have e1 := sync_eq_some parse0 envNoTsA (by decide)
  have e2 := sync_eq_some parse0 envNoTsB (by decide)
  rw [e1, e2]
  have hev1 : (filesOf envNoTsA).flatMap
      (fun f => readJsonl parse0 (envNoTsA.content f)) = [evNoTs] := by decide
  have hev2 : (filesOf envNoTsB).flatMap
      (fun f => readJsonl parse0 (envNoTsB.content f)) = [evNoTs] := by decide
  rw [hev1, hev2]
  have hd1 : (aggregate envNoTsA.now [evNoTs]).byDay.map (fun p => p.2)
      = [dayNoTsA] := by decide
  have hd2 : (aggregate envNoTsB.now [evNoTs]).byDay.map (fun p => p.2)
      = [dayNoTsB] := by decide
  simp only [payloadOf, Option.map_some', hd1, hd2, List.mergeSort_singleton]
  decide

/-- C7 (amended): whenever every included event carries its own truthy
timestamp (top-level or message-level), two runs over the unchanged log set
agree on everything but `generatedAt`: source, totals, daily and models are
identical. -/
theorem c7_now_invariance (parse : List Char → Option JsVal) (env : Env)
    (n1 n2 : List Char)
    (H : ∀ f ∈ filesOf env, ∀ e ∈ readJsonl parse (env.content f),
      includedB e = true → hasOwnTs e = true) :
    (sync parse { env with now := n1 }).map
        (fun p => (p.source, p.totals, p.daily, p.models))
      = (sync parse { env with now := n2 }).map
          (fun p => (p.source, p.totals, p.daily, p.models)) := by
  have hf1 : filesOf { env with now := n1 } = filesOf env := rfl
  have hf2 : filesOf { env with now := n2 } = filesOf env := rfl
  by_cases h : filesOf env = []
  · have e1 : sync parse { env with now := n1 } = none :=
      (sync_eq_none_iff _ _).mpr (by rw [hf1]; exact h)
    have e2 : sync parse { env with now := n2 } = none :=
      (sync_eq_none_iff _ _).mpr (by rw [hf2]; exact h)
    rw [e1, e2]
  · have e1 := sync_eq_some parse { env with now := n1 } (by rw [hf1]; exact h)
    have e2 := sync_eq_some parse { env with now := n2 } (by rw [hf2]; exact h)
    rw [e1, e2]
    have hAB : aggregate n1
        ((filesOf env).flatMap (fun f => readJsonl parse (env.content f)))
        = aggregate n2
            ((filesOf env).flatMap (fun f => readJsonl parse (env.content f))) := by
      apply foldl_now_indep
      intro e he
      rcases List.mem_flatMap.mp he with ⟨f, hf, he2⟩
      by_cases hi : includedB e
      · exact Or.inr (H f hf e he2 hi)
      · exact Or.inl (by simpa using hi)
    show some
        ((payloadOf (aggregate n1
          ((filesOf env).flatMap (fun f => readJsonl parse (env.content f)))) n1).source,
         (payloadOf (aggregate n1
          ((filesOf env).flatMap (fun f => readJsonl parse (env.content f)))) n1).totals,
         (payloadOf (aggregate n1
          ((filesOf env).flatMap (fun f => readJsonl parse (env.content f)))) n1).daily,
         (payloadOf (aggregate n1
          ((filesOf env).flatMap (fun f => readJsonl parse (env.content f)))) n1).models)
      = some
        ((payloadOf (aggregate n2
          ((filesOf env).flatMap (fun f => readJsonl parse (env.content f)))) n2).source,
         (payloadOf (aggregate n2
          ((filesOf env).flatMap (fun f => readJsonl parse (env.content f)))) n2).totals,
         (payloadOf (aggregate n2
          ((filesOf env).flatMap (fun f => readJsonl parse (env.content f)))) n2).daily,
         (payloadOf (aggregate n2
          ((filesOf env).flatMap (fun f => readJsonl parse (env.content f)))) n2).models)
    rw [hAB]
    rfl

/-- C7 witness: the invariance theorem applied to a one-file log whose event
carries a timestamp, at two different clock readings. -/
theorem c7_now_invariance_witness :
    (∀ f ∈ filesOf envTs, ∀ e ∈ readJsonl parse0 (envTs.content f),
      includedB e = true → hasOwnTs e = true)
    ∧ (sync parse0 { envTs with now := nowA }).map
        (fun p => (p.source, p.totals, p.daily, p.models))
      = (sync parse0 { envTs with now := nowB }).map
          (fun p => (p.source, p.totals, p.daily, p.models)) :=
  ⟨by decide, c7_now_invariance parse0 envTs nowA nowB (by decide)⟩

theorem modelLeTot_trans :
    ∀ a b c : ModelAgg, modelLeTot a b → modelLeTot b c → modelLeTot a c := by
  intro a b c h1 h2
  simp only [modelLeTot, decide_eq_true_eq] at h1 h2 ⊢
  exact le_trans h2 h1

theorem modelLeTot_total : ∀ a b : ModelAgg, modelLeTot a b || modelLeTot b a := by
  intro a b
  simp only [modelLeTot, Bool.or_eq_true, decide_eq_true_eq]
  exact le_total _ _

theorem dailyLe_trans : ∀ a b c : Day, dailyLe a b → dailyLe b c → dailyLe a c :=
  fun _ _ _ h1 h2 => lexLe_trans _ _ _ h1 h2

theorem dailyLe_total : ∀ a b : Day, dailyLe a b || dailyLe b a := by
  intro a b
  rcases lexLe_total a.date b.date with h | h <;> simp [dailyLe, h]

/-- C5 (amended): `daily` is non-decreasing under the date comparison; and
whenever no aggregated model cost is `NaN`, `models` is non-increasing by cost
and cost ties keep their discovery order. -/
theorem c5_payload_order (now : List Char) (events : List JsVal)
    (H : ∀ m ∈ (aggregate now events).byModel.map (fun p => p.2),
      m.cost.isSome = true) :
    (payloadOf (aggregate now events) now).daily.Pairwise
        (fun a b => dailyLe a b = true)
    ∧ (payloadOf (aggregate now events) now).models.Pairwise
        (fun a b => optGeB a.cost b.cost = true)
    ∧ (∀ a b : ModelAgg, a.cost = b.cost
        → List.Sublist [a, b] ((aggregate now events).byModel.map (fun p => p.2))
        → List.Sublist [a, b] ((payloadOf (aggregate now events) now).models)) := by
  have hag : ∀ a ∈ (aggregate now events).byModel.map (fun p => p.2),
      ∀ b ∈ (aggregate now events).byModel.map (fun p => p.2),
      modelCostLe a b = modelLeTot a b := by
    intro a ha b hb
    rcases Option.isSome_iff_exists.mp (H a ha) with ⟨x, hx⟩
    rcases Option.isSome_iff_exists.mp (H b hb) with ⟨y, hy⟩
    simp [modelCostLe, modelLeTot, hx, hy]
  have hc : ((aggregate now events).byModel.map (fun p => p.2)).mergeSort modelCostLe
      = ((aggregate now events).byModel.map (fun p => p.2)).mergeSort modelLeTot :=
    mergeSort_congr _ _ _ hag
  have hmodels : (payloadOf (aggregate now events) now).models
      = ((aggregate now events).byModel.map (fun p => p.2)).mergeSort modelCostLe := rfl
  refine ⟨?_, ?_, ?_⟩
  · exact List.sorted_mergeSort dailyLe_trans dailyLe_total _
  · rw [hmodels, hc]
    have hs := List.sorted_mergeSort modelLeTot_trans modelLeTot_total
      ((aggregate now events).byModel.map (fun p => p.2))
    refine hs.imp_of_mem ?_
    intro a b ha hb hr
    rcases Option.isSome_iff_exists.mp (H a (List.mem_mergeSort.mp ha)) with ⟨x, hx⟩
    rcases Option.isSome_iff_exists.mp (H b (List.mem_mergeSort.mp hb)) with ⟨y, hy⟩
    simp only [modelLeTot, hx, hy, decide_eq_true_eq, Option.getD_some] at hr
    simp [optGeB, hx, hy, hr]
  · intro a b hcost hsub
    rw [hmodels, hc]
    have hab : modelLeTot a b = true := by simp [modelLeTot, hcost]
    exact List.pair_sublist_mergeSort modelLeTot_trans modelLeTot_total hab hsub

/-- C5 witness: the order theorem applied to the two scenario events, whose
model costs are actual numbers. -/
theorem c5_payload_order_witness :
    (∀ m ∈ (aggregate nowX [evScen1, evScen2]).byModel.map (fun p => p.2),
      m.cost.isSome = true)
    ∧ ((payloadOf (aggregate nowX [evScen1, evScen2]) nowX).daily.Pairwise
          (fun a b => dailyLe a b = true)
      ∧ (payloadOf (aggregate nowX [evScen1, evScen2]) nowX).models.Pairwise
          (fun a b => optGeB a.cost b.cost = true)
      ∧ (∀ a b : ModelAgg, a.cost = b.cost
          → List.Sublist [a, b] ((aggregate nowX [evScen1, evScen2]).byModel.map (fun p => p.2))
          → List.Sublist [a, b] ((payloadOf (aggregate nowX [evScen1, evScen2]) nowX).models))) :=
  ⟨by decide, c5_payload_order nowX [evScen1, evScen2] (by decide)⟩

/-- C5 counterexample: a model whose cost is `NaN` (from a non-numeric
`cost.total`) is discovered first and stays first under the sort, so the
emitted `models` array is not non-increasing by cost. -/
theorem c5_counterexample :
    ¬ (payloadOf (aggregate nowX [evNaN, evFive]) nowX).models.Pairwise
        (fun a b => optGeB a.cost b.cost = true) := by
  have hmap : (aggregate nowX [evNaN, evFive]).byModel.map (fun p => p.2)
      = [mNaN, mFive] := by decide
  have hmodels : (payloadOf (aggregate nowX [evNaN, evFive]) nowX).models
      = [mNaN, mFive] := by
    show ((aggregate nowX [evNaN, evFive]).byModel.map (fun p => p.2)).mergeSort
        modelCostLe = [mNaN, mFive]
    rw [hmap, mergeSort_pair]
    decide
  rw [hmodels]
  decide
